import Mathlib

/-
  Verification development for the gevent-tftp repository (gtftp package).

  The Python sources are shallowly embedded:
  * Python byte strings and (ASCII) unicode strings are `List Nat` of byte values.
  * Python dicts are association lists with insertion-order iteration and
    in-place update on existing keys (`dictInsert`), which is deterministic
    where CPython's hash iteration order is an implementation detail.
  * Fallible code returns an explicit result type: `PRes.failed` models a
    `parse` that caught its packet-specific exception and returned `None`
    in safe mode, while `PRes.exc e` models a Python exception escaping the
    function (the `except` clauses in packet.py catch only the packet-specific
    `Invalid*` exceptions).
-/

namespace GTftp

/-! ## Byte-string helpers -/

/-- Python `str.lower` restricted to one ASCII byte. -/
def lowerByte (b : Nat) : Nat := if 65 ≤ b ∧ b ≤ 90 then b + 32 else b

/-- Python `unicode.lower` on an ASCII string. -/
def lowerStr (s : List Nat) : List Nat := s.map lowerByte

/-- Python `s.decode('ascii')` succeeds iff every byte is < 128. -/
def asciiB (s : List Nat) : Bool := s.all (fun b => b < 128)

/-- Big-endian 16-bit encoding, `struct.pack('!H', n)`. -/
def be16 (n : Nat) : List Nat := [n / 256 % 256, n % 256]

/-- Big-endian 16-bit decoding, `struct.unpack('!H', ...)`. -/
def de16 (hi lo : Nat) : Nat := hi * 256 + lo

/-- Python `s.split('\x00')` on a byte string. -/
def splitNul : List Nat → List (List Nat)
  | [] => [[]]
  | b :: rest =>
    if b = 0 then [] :: splitNul rest
    else
      match splitNul rest with
      | [] => [[b]]
      | t :: ts => (b :: t) :: ts

/-- `filter(bool, raw.split('\x00'))`: split on NUL and drop empty tokens. -/
def tokensOf (s : List Nat) : List (List Nat) := (splitNul s).filter (fun t => t ≠ [])

/-! ## Packet codec (src/gtftp/packet.py) -/

def OPCODE_RRQ : Nat := 1
def OPCODE_WRQ : Nat := 2
def OPCODE_DATA : Nat := 3
def OPCODE_ACK : Nat := 4
def OPCODE_ERROR : Nat := 5
def OPCODE_OACK : Nat := 6

/-- `Packet.MODE_NETASCII = u'netascii'` as ASCII bytes. -/
def MODE_NETASCII : List Nat := [110, 101, 116, 97, 115, 99, 105, 105]

/-- `Packet.MODE_BINARY = u'octet'` as ASCII bytes. -/
def MODE_BINARY : List Nat := [111, 99, 116, 101, 116]

/-- The six packet shapes of packet.py (Request covers RRQ and WRQ via its
opcode field, as in the source class). Options are insertion-ordered
association lists standing for Python dicts. -/
inductive Packet where
  | req (opcode : Nat) (path : List Nat) (mode : List Nat)
        (options : List (List Nat × List Nat))
  | data (block : Nat) (payload : List Nat)
  | ack (block : Nat)
  | err (code : Nat) (msg : List Nat)
  | oack (options : List (List Nat × List Nat))
deriving DecidableEq, Repr

/-- Option-list serialization shared by `Request.raw` and `OACK.raw`:
each pair is packed as `key NUL value`, the pieces are joined with NUL and a
trailing NUL is appended (`'\x00'.join(opts) + '\x00'`). -/
def optionsBytes (opts : List (List Nat × List Nat)) : List Nat :=
  (List.intercalate [0] (opts.map fun kv => kv.1 ++ [0] ++ kv.2)) ++ [0]

/-- `Request.raw`: opcode, path NUL mode NUL, then the option block only when
the option dict is non-empty (`if self._options:`). -/
def requestRaw (opcode : Nat) (path mode : List Nat)
    (opts : List (List Nat × List Nat)) : List Nat :=
  be16 opcode ++ path ++ [0] ++ mode ++ [0] ++
    (if opts = [] then [] else optionsBytes opts)

/-- `Packet.raw` for every shape (Data.raw, ACK.raw, Error.raw, OACK.raw). -/
def Packet.raw : Packet → List Nat
  | .req opcode path mode opts => requestRaw opcode path mode opts
  | .data bn payload => be16 OPCODE_DATA ++ be16 bn ++ payload
  | .ack bn => be16 OPCODE_ACK ++ be16 bn
  | .err c m => be16 OPCODE_ERROR ++ be16 c ++ m ++ [0]
  | .oack opts => be16 OPCODE_OACK ++ optionsBytes opts

/-- Python exceptions that can escape the safe-mode parse functions. -/
inductive PyExc where
  | structError
  | unicodeDecodeError
  | assertionError
  | indexError
deriving DecidableEq, Repr

/-- Result of a safe-mode parse call: a parsed value, a caught failure that
returned `None`, or an escaped Python exception. -/
inductive PRes (α : Type) where
  | ok (a : α)
  | failed
  | exc (e : PyExc)
deriving DecidableEq, Repr

def PRes.map {α β : Type} (f : α → β) : PRes α → PRes β
  | .ok a => .ok (f a)
  | .failed => .failed
  | .exc e => .exc e

/-- Python dict assignment `m[k] = v` on the association-list model: replace
in place when the key exists, append otherwise. -/
def dictInsert (m : List (List Nat × List Nat)) (k v : List Nat) :
    List (List Nat × List Nat) :=
  if m.any (fun kv => kv.1 = k) then
    m.map (fun kv => if kv.1 = k then (k, v) else kv)
  else m ++ [(k, v)]

/-- The option-assembly loop of `Request.parse`
(`while pos < len(tokens): options[tokens[pos].lower()] = tokens[pos+1]`).
The odd-length arm is unreachable there because the even-token guard has
already run. -/
def buildOptionsEven (acc : List (List Nat × List Nat)) :
    List (List Nat) → List (List Nat × List Nat)
  | [] => acc
  | [_] => acc
  | k :: v :: rest => buildOptionsEven (dictInsert acc (lowerStr k) v) rest

/-- The option-assembly loop of `OACK.parse`, which has no even-token guard:
on an odd token list `tokens[pos + 1]` raises IndexError (`none`). -/
def buildOptionsOpt (acc : List (List Nat × List Nat)) :
    List (List Nat) → Option (List (List Nat × List Nat))
  | [] => some acc
  | [_] => none
  | k :: v :: rest => buildOptionsOpt (dictInsert acc (lowerStr k) v) rest

/-- `Request.parse(raw, safe=True)`.  Only `InvalidTftpPacket` is caught, so
`struct.error` (short input), `UnicodeDecodeError` (non-ASCII bytes) and the
`AssertionError` from the `Request` constructor's mode assertion escape. -/
def requestParse (raw : List Nat) : PRes Packet :=
  match raw with
  | b0 :: b1 :: rest =>
    let opcode := de16 b0 b1
    if opcode ≠ OPCODE_RRQ ∧ opcode ≠ OPCODE_WRQ then .failed
    else if ¬ asciiB rest then .exc .unicodeDecodeError
    else
      let tokens := tokensOf rest
      if tokens.length < 2 ∨ tokens.length % 2 ≠ 0 then .failed
      else
        let path := tokens.getD 0 []
        let mode := lowerStr (tokens.getD 1 [])
        if mode ≠ MODE_NETASCII ∧ mode ≠ MODE_BINARY then .exc .assertionError
        else .ok (.req opcode path mode (buildOptionsEven [] (tokens.drop 2)))
  | _ => .exc .structError

/-- Core of `Data.parse(raw, safe=True)`: block number and payload.  Inputs
shorter than 4 bytes make `struct.unpack` raise `struct.error`, which the
`except InvalidDataPacket` clause does not catch. -/
def dataParseD (raw : List Nat) : PRes (Nat × List Nat) :=
  match raw with
  | b0 :: b1 :: rest =>
    if de16 b0 b1 ≠ OPCODE_DATA then .failed
    else
      match rest with
      | b2 :: b3 :: payload =>
        let bn := de16 b2 b3
        if bn = 0 then .failed else .ok (bn, payload)
      | _ => .exc .structError
  | _ => .exc .structError

/-- Core of `ACK.parse(raw, safe=True)`: the length-four guard runs first, so
no exception other than `InvalidACK` can arise. -/
def ackParseA (raw : List Nat) : PRes Nat :=
  if raw.length ≠ 4 then .failed
  else
    match raw with
    | b0 :: b1 :: b2 :: b3 :: _ =>
      if de16 b0 b1 ≠ OPCODE_ACK then .failed else .ok (de16 b2 b3)
    | _ => .failed

/-- Core of `Error.parse(raw, safe=True)`: code and message.  A 4-byte ERROR
packet has an empty message, and `message[-1]` raises IndexError; non-ASCII
message bytes raise `UnicodeDecodeError`; short inputs raise `struct.error`.
None of these is caught by `except InvalidErrorPacket`. -/
def errorParseE (raw : List Nat) : PRes (Nat × List Nat) :=
  match raw with
  | b0 :: b1 :: rest =>
    if de16 b0 b1 ≠ OPCODE_ERROR then .failed
    else
      match rest with
      | b2 :: b3 :: message =>
        let code := de16 b2 b3
        if code > 8 then .failed
        else if message = [] then .exc .indexError
        else
          let message := if message.getLast? = some 0 then message.dropLast else message
          if ¬ asciiB message then .exc .unicodeDecodeError
          else .ok (code, message)
      | _ => .exc .structError
  | _ => .exc .structError

/-- Core of `OACK.parse(raw, safe=True)`: the option map.  Odd token lists
raise IndexError inside the loop, and an empty map makes the `OACK`
constructor's assertion fail; `except InvalidOACK` catches neither. -/
def oackParseO (raw : List Nat) : PRes (List (List Nat × List Nat)) :=
  match raw with
  | b0 :: b1 :: rest =>
    if de16 b0 b1 ≠ OPCODE_OACK then .failed
    else if ¬ asciiB rest then .exc .unicodeDecodeError
    else
      match buildOptionsOpt [] (tokensOf rest) with
      | none => .exc .indexError
      | some opts => if opts = [] then .exc .assertionError else .ok opts
  | _ => .exc .structError

def dataParse (raw : List Nat) : PRes Packet :=
  (dataParseD raw).map (fun x => .data x.1 x.2)

def ackParse (raw : List Nat) : PRes Packet :=
  (ackParseA raw).map .ack

def errorParse (raw : List Nat) : PRes Packet :=
  (errorParseE raw).map (fun x => .err x.1 x.2)

def oackParse (raw : List Nat) : PRes Packet :=
  (oackParseO raw).map .oack

/-- The parse function corresponding to a packet's shape (the claim pairs
each `raw` with the matching class's `parse`). -/
def parseOf : Packet → List Nat → PRes Packet
  | .req _ _ _ _ => requestParse
  | .data _ _ => dataParse
  | .ack _ => ackParse
  | .err _ _ => errorParse
  | .oack _ => oackParse

/-! ## Validity predicates -/

/-- A usable string field: non-empty, free of NUL separators, pure ASCII. -/
def goodStr (s : List Nat) : Prop := s ≠ [] ∧ 0 ∉ s ∧ asciiB s = true

/-- Option maps that survive the codec: every key and value is a good string,
keys are already lowercase, and keys are pairwise distinct (they model the
keys of a Python dict). -/
def goodOpts (opts : List (List Nat × List Nat)) : Prop :=
  (∀ kv ∈ opts, goodStr kv.1 ∧ goodStr kv.2 ∧ lowerStr kv.1 = kv.1) ∧
    (opts.map Prod.fst).Nodup

/-- Validity exactly as the claim words it: RRQ/WRQ with ASCII path, mode in
the two modes and ASCII option map; DATA block in [1,65535]; ACK block in
[0,65535]; ERROR code in {0..8} with ASCII message; OACK with non-empty
ASCII option map. -/
def claimValid : Packet → Prop
  | .req opc path mode opts =>
      (opc = OPCODE_RRQ ∨ opc = OPCODE_WRQ) ∧ asciiB path = true ∧
        (mode = MODE_NETASCII ∨ mode = MODE_BINARY) ∧
        ∀ kv ∈ opts, asciiB kv.1 = true ∧ asciiB kv.2 = true
  | .data bn _ => 1 ≤ bn ∧ bn ≤ 65535
  | .ack bn => bn ≤ 65535
  | .err c m => c ≤ 8 ∧ asciiB m = true
  | .oack opts => opts ≠ [] ∧ ∀ kv ∈ opts, asciiB kv.1 = true ∧ asciiB kv.2 = true

/-- Strengthened validity under which the round trip actually holds: claim
validity plus non-empty NUL-free path, and good lowercase distinct option
keys with good values. -/
def goodPacket : Packet → Prop
  | .req opc path mode opts =>
      (opc = OPCODE_RRQ ∨ opc = OPCODE_WRQ) ∧ goodStr path ∧
        (mode = MODE_NETASCII ∨ mode = MODE_BINARY) ∧ goodOpts opts
  | .data bn _ => 1 ≤ bn ∧ bn ≤ 65535
  | .ack bn => bn ≤ 65535
  | .err c m => c ≤ 8 ∧ asciiB m = true
  | .oack opts => opts ≠ [] ∧ goodOpts opts

/-! ## Codec lemmas -/

instance (s : List Nat) : Decidable (goodStr s) := by
  unfold goodStr; infer_instance

instance (o : List (List Nat × List Nat)) : Decidable (goodOpts o) := by
  unfold goodOpts; infer_instance

instance (p : Packet) : Decidable (claimValid p) := by
  cases p <;> (unfold claimValid; infer_instance)

instance (p : Packet) : Decidable (goodPacket p) := by
  cases p <;> (unfold goodPacket; infer_instance)

theorem de16_be16 (n : Nat) (h : n < 65536) :
    de16 (n / 256 % 256) (n % 256) = n := by
  unfold de16; omega

theorem asciiB_iff (s : List Nat) : asciiB s = true ↔ ∀ b ∈ s, b < 128 := by
  simp [asciiB]

theorem asciiB_append (a b : List Nat) :
    asciiB (a ++ b) = (asciiB a && asciiB b) := by
  simp [asciiB, List.all_append]

theorem asciiB_cons (x : Nat) (s : List Nat) :
    asciiB (x :: s) = (decide (x < 128) && asciiB s) := by
  simp [asciiB]

theorem splitNul_append (a r : List Nat) (h : 0 ∉ a) :
    splitNul (a ++ 0 :: r) = a :: splitNul r := by
  induction a with
  | nil => simp [splitNul]
  | cons b a ih =>
    have hb : ¬ b = 0 := by rintro rfl; exact h (by simp)
    have h' : 0 ∉ a := fun m => h (List.mem_cons_of_mem _ m)
    simp only [List.cons_append, splitNul, List.append_eq]
    rw [if_neg hb, ih h']

theorem tokensOf_append (a r : List Nat) (h0 : 0 ∉ a) (ha : a ≠ []) :
    tokensOf (a ++ 0 :: r) = a :: tokensOf r := by
  simp [tokensOf, splitNul_append a r h0, ha]

theorem tokensOf_nil : tokensOf [] = [] := rfl

/-- The byte image of a non-empty option list: each pair contributes
`key NUL value NUL`. -/
def pairsBytes (opts : List (List Nat × List Nat)) : List Nat :=
  (opts.map (fun kv => kv.1 ++ 0 :: kv.2 ++ [0])).flatten

/-- The token sequence an option list flattens to. -/
def flatKV (opts : List (List Nat × List Nat)) : List (List Nat) :=
  (opts.map (fun kv => [kv.1, kv.2])).flatten

theorem flatKV_length (opts : List (List Nat × List Nat)) :
    (flatKV opts).length = 2 * opts.length := by
  induction opts with
  | nil => simp [flatKV]
  | cons kv rest ih => simp [flatKV] at ih ⊢; omega

theorem intercalate0_cons_cons (x y : List Nat) (l : List (List Nat)) :
    List.intercalate [0] (x :: y :: l) = x ++ 0 :: List.intercalate [0] (y :: l) := by
  simp [List.intercalate, List.intersperse_cons_cons]

theorem optionsBytes_eq_pairsBytes (opts : List (List Nat × List Nat))
    (h : opts ≠ []) : optionsBytes opts = pairsBytes opts := by
  induction opts with
  | nil => exact absurd rfl h
  | cons kv rest ih =>
    cases rest with
    | nil => simp [optionsBytes, pairsBytes, List.intercalate]
    | cons kv2 rest2 =>
      have ih' : optionsBytes (kv2 :: rest2) = pairsBytes (kv2 :: rest2) :=
        ih (by simp)
      have e : optionsBytes (kv :: kv2 :: rest2)
          = kv.1 ++ 0 :: kv.2 ++ 0 :: optionsBytes (kv2 :: rest2) := by
        simp only [optionsBytes, List.map_cons, intercalate0_cons_cons]
        simp
      rw [e, ih']
      simp [pairsBytes]

theorem tokensOf_pairsBytes (opts : List (List Nat × List Nat))
    (h : ∀ kv ∈ opts, goodStr kv.1 ∧ goodStr kv.2) :
    tokensOf (pairsBytes opts) = flatKV opts := by
  induction opts with
  | nil => simp [pairsBytes, flatKV, tokensOf_nil]
  | cons kv rest ih =>
    obtain ⟨⟨hk1, hk0, _⟩, ⟨hv1, hv0, _⟩⟩ := h kv (by simp)
    have hrest := fun kv hkv => h kv (List.mem_cons_of_mem _ hkv)
    have e1 : pairsBytes (kv :: rest) =
        kv.1 ++ 0 :: (kv.2 ++ 0 :: pairsBytes rest) := by
      simp [pairsBytes]
    rw [e1, tokensOf_append _ _ hk0 hk1, tokensOf_append _ _ hv0 hv1, ih hrest]
    simp [flatKV]

theorem dictInsert_fresh (acc : List (List Nat × List Nat)) (k v : List Nat)
    (h : k ∉ acc.map Prod.fst) : dictInsert acc k v = acc ++ [(k, v)] := by
  have : acc.any (fun kv => kv.1 = k) = false := by
    simp only [List.any_eq_false, decide_eq_true_eq]
    intro kv hkv e
    exact h (by exact List.mem_map.mpr ⟨kv, hkv, e⟩)
  simp [dictInsert, this]

theorem buildOptionsEven_flat (opts : List (List Nat × List Nat)) :
    ∀ acc, (∀ kv ∈ opts, lowerStr kv.1 = kv.1) →
    (acc.map Prod.fst ++ opts.map Prod.fst).Nodup →
    buildOptionsEven acc (flatKV opts) = acc ++ opts := by
  induction opts with
  | nil => intro acc _ _; simp [flatKV, buildOptionsEven]
  | cons kv rest ih =>
    intro acc hlow hnd
    have hk' : lowerStr kv.1 = kv.1 := hlow kv (by simp)
    have hnotin : kv.1 ∉ acc.map Prod.fst := by
      rw [List.nodup_append] at hnd
      exact fun m => hnd.2.2 m (by simp)
    have e1 : flatKV (kv :: rest) = kv.1 :: kv.2 :: flatKV rest := by
      simp [flatKV]
    rw [e1]
    show buildOptionsEven (dictInsert acc (lowerStr kv.1) kv.2) (flatKV rest)
        = acc ++ kv :: rest
    rw [hk', dictInsert_fresh acc kv.1 kv.2 hnotin]
    have hnd' : ((acc ++ [(kv.1, kv.2)]).map Prod.fst ++ rest.map Prod.fst).Nodup := by
      simpa using hnd
    rw [ih (acc ++ [(kv.1, kv.2)]) (fun x hx => hlow x (List.mem_cons_of_mem _ hx)) hnd']
    simp

theorem buildOptionsOpt_flat (opts : List (List Nat × List Nat)) :
    ∀ acc, (∀ kv ∈ opts, lowerStr kv.1 = kv.1) →
    (acc.map Prod.fst ++ opts.map Prod.fst).Nodup →
    buildOptionsOpt acc (flatKV opts) = some (acc ++ opts) := by
  induction opts with
  | nil => intro acc _ _; simp [flatKV, buildOptionsOpt]
  | cons kv rest ih =>
    intro acc hlow hnd
    have hk' : lowerStr kv.1 = kv.1 := hlow kv (by simp)
    have hnotin : kv.1 ∉ acc.map Prod.fst := by
      rw [List.nodup_append] at hnd
      exact fun m => hnd.2.2 m (by simp)
    have e1 : flatKV (kv :: rest) = kv.1 :: kv.2 :: flatKV rest := by
      simp [flatKV]
    rw [e1]
    show buildOptionsOpt (dictInsert acc (lowerStr kv.1) kv.2) (flatKV rest)
        = some (acc ++ kv :: rest)
    rw [hk', dictInsert_fresh acc kv.1 kv.2 hnotin]
    have hnd' : ((acc ++ [(kv.1, kv.2)]).map Prod.fst ++ rest.map Prod.fst).Nodup := by
      simpa using hnd
    rw [ih (acc ++ [(kv.1, kv.2)]) (fun x hx => hlow x (List.mem_cons_of_mem _ hx)) hnd']
    simp

theorem asciiB_pairsBytes (opts : List (List Nat × List Nat))
    (h : ∀ kv ∈ opts, asciiB kv.1 = true ∧ asciiB kv.2 = true) :
    asciiB (pairsBytes opts) = true := by
  induction opts with
  | nil => simp [pairsBytes, asciiB]
  | cons kv rest ih =>
    obtain ⟨h1, h2⟩ := h kv (by simp)
    have e1 : pairsBytes (kv :: rest) =
        kv.1 ++ 0 :: (kv.2 ++ 0 :: pairsBytes rest) := by
      simp [pairsBytes]
    rw [e1]
    simp [asciiB_append, asciiB_cons, h1, h2,
      ih (fun x hx => h x (List.mem_cons_of_mem _ hx))]

theorem requestParse_raw (opcode : Nat) (path mode : List Nat)
    (opts : List (List Nat × List Nat))
    (hop : opcode = OPCODE_RRQ ∨ opcode = OPCODE_WRQ)
    (hpath : goodStr path)
    (hmode : mode = MODE_NETASCII ∨ mode = MODE_BINARY)
    (hopts : goodOpts opts) :
    requestParse (requestRaw opcode path mode opts)
      = .ok (.req opcode path mode opts) := by
  obtain ⟨hp1, hp0, hpa⟩ := hpath
  obtain ⟨hkv, hnd⟩ := hopts
  have hm1 : mode ≠ [] := by rcases hmode with h | h <;> subst h <;> decide
  have hm0 : (0 : Nat) ∉ mode := by rcases hmode with h | h <;> subst h <;> decide
  have hma : asciiB mode = true := by rcases hmode with h | h <;> subst h <;> decide
  have hml : lowerStr mode = mode := by rcases hmode with h | h <;> subst h <;> decide
  have htails : tokensOf (mode ++ 0 :: (if opts = [] then [] else optionsBytes opts))
      = mode :: flatKV opts := by
    rcases Decidable.em (opts = []) with he | he
    · subst he
      rw [if_pos rfl, tokensOf_append mode [] hm0 hm1, tokensOf_nil]
      simp [flatKV]
    · rw [if_neg he, optionsBytes_eq_pairsBytes opts he,
        tokensOf_append mode _ hm0 hm1,
        tokensOf_pairsBytes opts (fun kv h => ⟨(hkv kv h).1, (hkv kv h).2.1⟩)]
  have htaila : asciiB (if opts = [] then [] else optionsBytes opts) = true := by
    rcases Decidable.em (opts = []) with he | he
    · rw [if_pos he]; decide
    · rw [if_neg he, optionsBytes_eq_pairsBytes opts he]
      exact asciiB_pairsBytes opts
        (fun kv h => ⟨(hkv kv h).1.2.2, (hkv kv h).2.1.2.2⟩)
  have hrest_tok : tokensOf (path ++ 0 ::
      (mode ++ 0 :: (if opts = [] then [] else optionsBytes opts)))
      = path :: mode :: flatKV opts := by
    rw [tokensOf_append path _ hp0 hp1, htails]
  have hrest_ascii : asciiB (path ++ 0 ::
      (mode ++ 0 :: (if opts = [] then [] else optionsBytes opts))) = true := by
    simp [asciiB_append, asciiB_cons, hpa, hma, htaila]
  have hraw : requestRaw opcode path mode opts
      = (opcode / 256 % 256) :: (opcode % 256) :: (path ++ 0 ::
          (mode ++ 0 :: (if opts = [] then [] else optionsBytes opts))) := by
    simp [requestRaw, be16]
  have hop16 : de16 (opcode / 256 % 256) (opcode % 256) = opcode :=
    de16_be16 opcode (by rcases hop with h | h <;> subst h <;> decide)
  have hopok : ¬ (opcode ≠ OPCODE_RRQ ∧ opcode ≠ OPCODE_WRQ) := by
    rcases hop with h | h <;> simp [h]
  have hlen : ¬ ((path :: mode :: flatKV opts).length < 2 ∨
      (path :: mode :: flatKV opts).length % 2 ≠ 0) := by
    simp only [List.length_cons, flatKV_length]
    omega
  have hmok : ¬ (mode ≠ MODE_NETASCII ∧ mode ≠ MODE_BINARY) := by
    rcases hmode with h | h <;> simp [h]
  rw [hraw]
  simp only [requestParse, hop16, hrest_ascii, hrest_tok, hml]
  rw [if_neg hopok, if_neg (by simp), if_neg hlen]
  simp only [List.getD_cons_zero, List.getD_cons_succ, List.drop_succ_cons,
    List.drop_zero, hml]
  rw [if_neg hmok]
  rw [buildOptionsEven_flat opts [] (fun kv h => (hkv kv h).2.2) (by simpa using hnd)]
  simp

theorem parse_raw_of_good (p : Packet) (h : goodPacket p) :
    parseOf p p.raw = PRes.ok p := by
  cases p with
  | req opcode path mode opts =>
    exact requestParse_raw opcode path mode opts h.1 h.2.1 h.2.2.1 h.2.2.2
  | data bn payload =>
    obtain ⟨h1, h2⟩ := h
    have hbe : de16 (bn / 256 % 256) (bn % 256) = bn := de16_be16 bn (by omega)
    have hraw : (Packet.data bn payload).raw
        = 0 :: 3 :: ((bn / 256 % 256) :: (bn % 256) :: payload) := by
      simp [Packet.raw, be16, OPCODE_DATA]
    rw [hraw]
    simp only [parseOf, dataParse, dataParseD, hbe]
    rw [if_neg (by decide), if_neg (by omega)]
    simp [PRes.map]
  | ack bn =>
    have h1 : bn ≤ 65535 := h
    have hbe : de16 (bn / 256 % 256) (bn % 256) = bn := de16_be16 bn (by omega)
    have hraw : (Packet.ack bn).raw
        = 0 :: 4 :: (bn / 256 % 256) :: (bn % 256) :: [] := by
      simp [Packet.raw, be16, OPCODE_ACK]
    rw [hraw]
    simp only [parseOf, ackParse, ackParseA, hbe]
    rw [if_neg (by simp), if_neg (by decide)]
    simp [PRes.map]
  | err code msg =>
    obtain ⟨h1, h2⟩ := h
    have hbe : de16 (code / 256 % 256) (code % 256) = code :=
      de16_be16 code (by omega)
    have hraw : (Packet.err code msg).raw
        = 0 :: 5 :: ((code / 256 % 256) :: (code % 256) :: (msg ++ [0])) := by
      simp [Packet.raw, be16, OPCODE_ERROR]
    rw [hraw]
    simp only [parseOf, errorParse, errorParseE, hbe]
    rw [if_neg (by decide), if_neg (by omega), if_neg (by simp)]
    have hlast : (msg ++ [0]).getLast? = some 0 := by
      rw [List.getLast?_concat]
    have hdrop : (msg ++ [0]).dropLast = msg := by
      rw [List.dropLast_concat]
    rw [hlast]
    simp only [if_pos rfl, hdrop]
    rw [if_neg (by simp [h2])]
    simp [PRes.map]
  | oack opts =>
    obtain ⟨h1, ⟨hkv, hnd⟩⟩ := h
    have hraw : (Packet.oack opts).raw = 0 :: 6 :: pairsBytes opts := by
      simp [Packet.raw, be16, OPCODE_OACK, optionsBytes_eq_pairsBytes opts h1]
    rw [hraw]
    simp only [parseOf, oackParse, oackParseO]
    rw [if_neg (by decide)]
    have hta : asciiB (pairsBytes opts) = true :=
      asciiB_pairsBytes opts (fun kv h => ⟨(hkv kv h).1.2.2, (hkv kv h).2.1.2.2⟩)
    rw [if_neg (by simp [hta])]
    rw [tokensOf_pairsBytes opts (fun kv h => ⟨(hkv kv h).1, (hkv kv h).2.1⟩)]
    rw [buildOptionsOpt_flat opts [] (fun kv h => (hkv kv h).2.2) (by simpa using hnd)]
    simp only []
    rw [if_neg (by simpa using h1)]
    simp [PRes.map]

/-- C1 is falsified as stated: the packet `Request(RRQ, path=u'', mode=u'octet')`
is valid in the claim's sense (its path and option map are ASCII, its mode is
`octet`), yet `Request.parse(p.raw())` returns `None`: the parser drops the
empty path token, leaving a single token, and rejects the token list.  So no
packet equal to `p` (nor any packet at all) is produced. -/
theorem c1_roundtrip_counterexample :
    claimValid (Packet.req OPCODE_RRQ [] MODE_BINARY []) ∧
      parseOf (Packet.req OPCODE_RRQ [] MODE_BINARY [])
        (Packet.req OPCODE_RRQ [] MODE_BINARY []).raw = PRes.failed ∧
      ∀ q : Packet, parseOf (Packet.req OPCODE_RRQ [] MODE_BINARY [])
        (Packet.req OPCODE_RRQ [] MODE_BINARY []).raw ≠ PRes.ok q := by
  refine ⟨by decide, by decide, fun q h => ?_⟩
  rw [show parseOf (Packet.req OPCODE_RRQ [] MODE_BINARY [])
      (Packet.req OPCODE_RRQ [] MODE_BINARY []).raw = PRes.failed from by decide] at h
  exact PRes.noConfusion h

/-- C1 amended: for every valid packet whose string fields survive the codec
— the path is additionally non-empty and NUL-free, and option keys are
non-empty, NUL-free, lowercase and pairwise distinct with non-empty NUL-free
values — parsing the bytes produced by `raw()` with the corresponding parse
function yields a packet equal to it under the codec's equality
(`__eq__` compares `raw()` byte strings). -/
theorem c1_roundtrip (p : Packet) (h : goodPacket p) :
    ∃ q, parseOf p p.raw = PRes.ok q ∧ q.raw = p.raw :=
  ⟨p, parse_raw_of_good p h, rfl⟩

/-- C1 witness: concrete round trip of an RRQ carrying a blksize option. -/
theorem c1_roundtrip_witness :
    goodPacket (Packet.req 1 [102] MODE_BINARY
        [([98, 108, 107, 115, 105, 122, 101], [49, 48, 50, 52])]) ∧
      ∃ q, parseOf (Packet.req 1 [102] MODE_BINARY
          [([98, 108, 107, 115, 105, 122, 101], [49, 48, 50, 52])])
          (Packet.req 1 [102] MODE_BINARY
            [([98, 108, 107, 115, 105, 122, 101], [49, 48, 50, 52])]).raw
          = PRes.ok q ∧
        q.raw = (Packet.req 1 [102] MODE_BINARY
          [([98, 108, 107, 115, 105, 122, 101], [49, 48, 50, 52])]).raw :=
  ⟨by decide, c1_roundtrip _ (by decide)⟩

/-! ## Read and write sessions (src/gtftp/handler.py) -/

/-- The packets a read session stores in `_cur_packet`: the OACK sent during
option negotiation, or the last DATA block sent. -/
inductive RSent where
  | oackP (opts : List (List Nat × List Nat))
  | dataP (bn : Nat) (payload : List Nat)
deriving DecidableEq, Repr

/-- Block-number choice of `BaseReadHandler._next_block`: 1 at start or after
an OACK, otherwise the current block number plus one, wrapping to 1 above
65535. -/
def nextBlockNum : Option RSent → Nat
  | none => 1
  | some (.oackP _) => 1
  | some (.dataP bn _) => if bn + 1 > 65535 then 1 else bn + 1

/-- `Data.blocksize` of a stored packet (only ever taken on DATA). -/
def RSent.blocksize : RSent → Nat
  | .oackP _ => 0
  | .dataP _ payload => payload.length

/-- `BaseReadHandler._next_block` over a list-backed target whose `read(n)`
returns the next `min n remaining` bytes.  The source's accumulation loop
(`while len(block) < blksize and data: ...`) collapses for such a target:
the first `read(blksize)` already returns `take blksize` of the remaining
bytes and a second read can only return the empty string at EOF. -/
def nextBlock (cur : Option RSent) (blksize : Nat) (remaining : List Nat) :
    RSent × List Nat :=
  (.dataP (nextBlockNum cur) (remaining.take blksize), remaining.drop blksize)

/-- The packets a write session stores in `_cur_packet`: the OACK sent during
negotiation or the last ACK sent. -/
inductive WSent where
  | oackW (opts : List (List Nat × List Nat))
  | ackW (bn : Nat)
deriving DecidableEq, Repr

/-- `BaseWriteHandler._expected_block_num`: `None` before anything was sent,
1 after an OACK, and otherwise the block number of the last ACK plus one —
with no wrap-around in the source. -/
def writeExpectedBlockNum : Option WSent → Option Nat
  | none => none
  | some (.oackW _) => some 1
  | some (.ackW bn) => some (bn + 1)

/-- Outcome of one `_wait_ack` window, abstracting the gevent timer: either
the ACK matching the expected block number arrived before the deadline, or
the window timed out. -/
inductive WaitR where
  | acked
  | timedOut
deriving DecidableEq, Repr

/-- Mutable state of the read-session loop. -/
structure RState where
  cur : Option RSent
  retransmits : Nat
  shouldStop : Bool
  remaining : List Nat
deriving DecidableEq, Repr

/-- How a driven read session ends: normally, by `TransmitTimeout`, or with
the event script exhausted while the session still runs (`pending` carries
the state reached). -/
inductive ROutcome where
  | finished
  | timedOutFail
  | pending (s : RState)
deriving DecidableEq, Repr

/-- The loops of `BaseReadHandler.run` after the initial send, consuming one
`WaitR` event per `_wait_ack` window and returning the list of packets sent.
On a timeout, `_handle_timeout` retransmits `_cur_packet` while
`_retransmits < retries` and raises `TransmitTimeout` otherwise — the same
in the main loop and in the dallying loop.  On an ACK: while `should_stop`
is unset, `run_once` resets `_retransmits`, sends the next block and sets
`should_stop` when that block is short; once `should_stop` is set, the
dallying loop `while not self._wait_ack(): self._handle_timeout()` returns
and the session finishes. -/
def rdrive (blksize retries : Nat) : RState → List WaitR → List RSent × ROutcome
  | s, [] => ([], .pending s)
  | s, e :: es =>
    match e with
    | .timedOut =>
      if s.retransmits < retries then
        let r := rdrive blksize retries { s with retransmits := s.retransmits + 1 } es
        (s.cur.toList ++ r.1, r.2)
      else ([], .timedOutFail)
    | .acked =>
      if s.shouldStop then ([], .finished)
      else
        let b := nextBlock s.cur blksize s.remaining
        let r := rdrive blksize retries
          ⟨some b.1, 0, decide (b.1.blocksize < blksize), b.2⟩ es
        (b.1 :: r.1, r.2)

/-- The state right after `_handle_rrq` (for a request without options) sent
the first data block. -/
def rrunInit (blksize : Nat) (content : List Nat) : RState :=
  ⟨some (nextBlock none blksize content).1, 0,
    decide ((nextBlock none blksize content).1.blocksize < blksize),
    (nextBlock none blksize content).2⟩

/-- `BaseReadHandler.run` for a request without options: `_handle_rrq` sends
the first data block (setting `should_stop` at once when it is short), then
`rdrive` runs the loops. -/
def rrunSession (blksize retries : Nat) (content : List Nat)
    (events : List WaitR) : List RSent × ROutcome :=
  let r := rdrive blksize retries (rrunInit blksize content) events
  ((nextBlock none blksize content).1 :: r.1, r.2)

/-- C5 is half right: the read session's `_next_block` wraps the block number
after 65535 back to 1, but the write session's `_expected_block_num` computes
`block_number + 1` with no wrap, so after acknowledging block 65535 it
expects block 65536 — a number no DATA packet can carry (parsed block numbers
are 16-bit), not block 1 as the claim states. -/
theorem c5_block_wraparound :
    nextBlockNum (some (.dataP 65535 [])) = 1 ∧
      writeExpectedBlockNum (some (.ackW 65535)) = some 65536 ∧
      writeExpectedBlockNum (some (.ackW 65535)) ≠ some 1 := by
  refine ⟨rfl, rfl, by decide⟩

/-- The state `run_once` moves to after a matched ACK: `_retransmits` reset,
the next block current, `should_stop` when the block is short. -/
def ackStep (blksize : Nat) (s : RState) : RState :=
  ⟨some (nextBlock s.cur blksize s.remaining).1, 0,
    decide ((nextBlock s.cur blksize s.remaining).1.blocksize < blksize),
    (nextBlock s.cur blksize s.remaining).2⟩

theorem rdrive_nil (blksize retries : Nat) (s : RState) :
    rdrive blksize retries s [] = ([], .pending s) := rfl

theorem rdrive_cons_acked (blksize retries : Nat) (s : RState)
    (es : List WaitR) (hstop : s.shouldStop = false) :
    rdrive blksize retries s (.acked :: es)
      = ((nextBlock s.cur blksize s.remaining).1 ::
          (rdrive blksize retries (ackStep blksize s) es).1,
         (rdrive blksize retries (ackStep blksize s) es).2) := by
  simp [rdrive, hstop, ackStep]

theorem rdrive_cons_acked_stop (blksize retries : Nat) (s : RState)
    (es : List WaitR) (hstop : s.shouldStop = true) :
    rdrive blksize retries s (.acked :: es) = ([], .finished) := by
  simp [rdrive, hstop]

theorem rdrive_cons_timeout_lt (blksize retries : Nat) (s : RState)
    (es : List WaitR) (hlt : s.retransmits < retries) :
    rdrive blksize retries s (.timedOut :: es)
      = (s.cur.toList ++
          (rdrive blksize retries { s with retransmits := s.retransmits + 1 } es).1,
         (rdrive blksize retries { s with retransmits := s.retransmits + 1 } es).2) := by
  simp [rdrive, hlt]

theorem rdrive_cons_timeout_ge (blksize retries : Nat) (s : RState)
    (es : List WaitR) (hge : ¬ s.retransmits < retries) :
    rdrive blksize retries s (.timedOut :: es) = ([], .timedOutFail) := by
  simp [rdrive, hge]

theorem rdrive_acked_finish (blksize retries : Nat) (hb : 0 < blksize) :
    ∀ (j : Nat) (s : RState), s.shouldStop = false →
      s.remaining.length = j * blksize →
      (rdrive blksize retries s (List.replicate (j + 2) .acked)).2 = .finished ∧
        (rdrive blksize retries s (List.replicate (j + 2) .acked)).1.map
          RSent.blocksize = List.replicate j blksize ++ [0] := by
  intro j
  induction j with
  | zero =>
    intro s hstop hrem
    have hnil : s.remaining = [] := List.length_eq_zero.mp (by simpa using hrem)
    have h1 : (nextBlock s.cur blksize s.remaining).1.blocksize = 0 := by
      simp [nextBlock, hnil, RSent.blocksize]
    have hstop2 : (ackStep blksize s).shouldStop = true := by
      simp [ackStep, h1, hb]
    rw [show (0 + 2 : Nat) = 1 + 1 from rfl, List.replicate_succ,
      rdrive_cons_acked blksize retries s _ hstop, List.replicate_succ,
      List.replicate_zero, rdrive_cons_acked_stop blksize retries _ _ hstop2]
    simp [h1]
  | succ j ih =>
    intro s hstop hrem
    have hge : blksize ≤ s.remaining.length := by
      rw [hrem]
      calc blksize = 1 * blksize := (one_mul _).symm
        _ ≤ (j + 1) * blksize := Nat.mul_le_mul_right _ (by omega)
    have htake : (nextBlock s.cur blksize s.remaining).1.blocksize = blksize := by
      simp [nextBlock, RSent.blocksize, List.length_take]; omega
    have hstop2 : (ackStep blksize s).shouldStop = false := by
      simp [ackStep, htake]
    have hrem2 : (ackStep blksize s).remaining.length = j * blksize := by
      simp [ackStep, nextBlock, List.length_drop, hrem]
      ring_nf
      omega
    have step := ih (ackStep blksize s) hstop2 hrem2
    rw [show (j + 1 + 2 : Nat) = (j + 2) + 1 from rfl, List.replicate_succ,
      rdrive_cons_acked blksize retries s _ hstop]
    refine ⟨step.1, ?_⟩
    simp only [List.map_cons, step.2, htake]
    rw [List.replicate_succ]
    simp

theorem rdrive_acked_pending (blksize retries : Nat) (hb : 0 < blksize) :
    ∀ (j : Nat) (s : RState), s.shouldStop = false →
      s.remaining.length = j * blksize →
      ∃ tr s2, rdrive blksize retries s (List.replicate (j + 1) .acked)
          = (tr, .pending s2) ∧ s2.shouldStop = true := by
  intro j
  induction j with
  | zero =>
    intro s hstop hrem
    have hnil : s.remaining = [] := List.length_eq_zero.mp (by simpa using hrem)
    have h1 : (nextBlock s.cur blksize s.remaining).1.blocksize = 0 := by
      simp [nextBlock, hnil, RSent.blocksize]
    have hstop2 : (ackStep blksize s).shouldStop = true := by
      simp [ackStep, h1, hb]
    refine ⟨[(nextBlock s.cur blksize s.remaining).1], ackStep blksize s, ?_, hstop2⟩
    rw [List.replicate_succ, List.replicate_zero,
      rdrive_cons_acked blksize retries s _ hstop, rdrive_nil]
  | succ j ih =>
    intro s hstop hrem
    have hge : blksize ≤ s.remaining.length := by
      rw [hrem]
      calc blksize = 1 * blksize := (one_mul _).symm
        _ ≤ (j + 1) * blksize := Nat.mul_le_mul_right _ (by omega)
    have htake : (nextBlock s.cur blksize s.remaining).1.blocksize = blksize := by
      simp [nextBlock, RSent.blocksize, List.length_take]; omega
    have hstop2 : (ackStep blksize s).shouldStop = false := by
      simp [ackStep, htake]
    have hrem2 : (ackStep blksize s).remaining.length = j * blksize := by
      simp [ackStep, nextBlock, List.length_drop, hrem]
      ring_nf
      omega
    obtain ⟨tr, s2, hrun, hs2⟩ := ih (ackStep blksize s) hstop2 hrem2
    refine ⟨(nextBlock s.cur blksize s.remaining).1 :: tr, s2, ?_, hs2⟩
    rw [show (j + 1 + 1 : Nat) = (j + 1) + 1 from rfl, List.replicate_succ,
      rdrive_cons_acked blksize retries s _ hstop, hrun]

/-- C7: for a target whose byte count is exactly `k * blksize` and a client
that acknowledges every block, the read session sends exactly `k` DATA blocks
of length `blksize` followed by one zero-length DATA block and finishes; with
one fewer acknowledgement the session has sent the same blocks and set
`should_stop`, but is still waiting (the dallying phase), so it terminates
only once the final block is acknowledged. -/
theorem c7_exact_multiple (k blksize retries : Nat) (content : List Nat)
    (hb : 0 < blksize) (hlen : content.length = k * blksize) :
    (rrunSession blksize retries content (List.replicate (k + 1) .acked)).2
        = .finished ∧
      (rrunSession blksize retries content
          (List.replicate (k + 1) .acked)).1.map RSent.blocksize
        = List.replicate k blksize ++ [0] ∧
      ∃ tr s, rrunSession blksize retries content (List.replicate k .acked)
          = (tr, .pending s) ∧ s.shouldStop = true := by
  cases k with
  | zero =>
    have hnil : content = [] := List.length_eq_zero.mp (by simpa using hlen)
    subst hnil
    have h1 : (nextBlock none blksize []).1.blocksize = 0 := by
      simp [nextBlock, RSent.blocksize]
    have hstop0 : (rrunInit blksize []).shouldStop = true := by
      simp [rrunInit, h1, hb]
    refine ⟨?_, ?_, ⟨[(nextBlock none blksize []).1], rrunInit blksize [], ?_, hstop0⟩⟩
    · simp only [rrunSession, List.replicate_succ, List.replicate_zero,
        rdrive_cons_acked_stop blksize retries _ _ hstop0]
    · simp only [rrunSession, List.replicate_succ, List.replicate_zero,
        rdrive_cons_acked_stop blksize retries _ _ hstop0]
      simp [h1]
    · simp only [rrunSession, List.replicate_zero, rdrive_nil]
  | succ k =>
    have hge : blksize ≤ content.length := by
      rw [hlen]
      calc blksize = 1 * blksize := (one_mul _).symm
        _ ≤ (k + 1) * blksize := Nat.mul_le_mul_right _ (by omega)
    have htake : (nextBlock none blksize content).1.blocksize = blksize := by
      simp [nextBlock, RSent.blocksize, List.length_take]; omega
    have hstop0 : (rrunInit blksize content).shouldStop = false := by
      simp [rrunInit, htake]
    have hrem0 : (rrunInit blksize content).remaining.length = k * blksize := by
      simp [rrunInit, nextBlock, List.length_drop, hlen]
      ring_nf
      omega
    have hfin := rdrive_acked_finish blksize retries hb k
      (rrunInit blksize content) hstop0 hrem0
    obtain ⟨tr, s2, hrun, hs2⟩ := rdrive_acked_pending blksize retries hb k
      (rrunInit blksize content) hstop0 hrem0
    refine ⟨?_, ?_, ⟨(nextBlock none blksize content).1 :: tr, s2, ?_, hs2⟩⟩
    · simpa only [rrunSession] using hfin.1
    · simp only [rrunSession, List.map_cons, hfin.2, htake]
      rw [List.replicate_succ]
      simp
    · simp only [rrunSession, hrun]

/-- C7 witness: a 4-byte target with blksize 2 sends two full blocks and one
empty block, dallying until the third acknowledgement. -/
theorem c7_exact_multiple_witness :
    (rrunSession 2 0 [9, 9, 9, 9] (List.replicate 3 .acked)).2
        = .finished ∧
      (rrunSession 2 0 [9, 9, 9, 9]
          (List.replicate 3 .acked)).1.map RSent.blocksize
        = List.replicate 2 2 ++ [0] ∧
      ∃ tr s, rrunSession 2 0 [9, 9, 9, 9] (List.replicate 2 .acked)
          = (tr, .pending s) ∧ s.shouldStop = true :=
  c7_exact_multiple 2 2 0 [9, 9, 9, 9] (by decide) (by decide)

theorem rdrive_timeouts (blksize retries : Nat) :
    ∀ (m : Nat) (s : RState) (c : RSent), s.cur = some c →
      s.retransmits + m = retries →
      rdrive blksize retries s (List.replicate (m + 1) .timedOut)
        = (List.replicate m c, .timedOutFail) := by
  intro m
  induction m with
  | zero =>
    intro s c _ hr
    have : ¬ s.retransmits < retries := by omega
    simp [rdrive, this]
  | succ m ih =>
    intro s c hc hr
    have hlt : s.retransmits < retries := by omega
    have step := ih { s with retransmits := s.retransmits + 1 } c (by simpa using hc)
      (by simp; omega)
    rw [List.replicate_succ, rdrive_cons_timeout_lt blksize retries s _ hlt, step, hc]
    rw [List.replicate_succ]
    simp [Option.toList]

/-- C8: with the expected ACK never arriving, every timeout retransmits the
last sent packet unchanged (the trace is the initial DATA followed by
`retries` identical copies), and the timeout after the `retries`-th
retransmission raises `TransmitTimeout`, ending the run with no further DATA;
and whenever an ACK matches, `run_once` resets `_retransmits` to 0. -/
theorem c8_retransmission (blksize retries : Nat) (content : List Nat) :
    rrunSession blksize retries content (List.replicate (retries + 1) .timedOut)
        = ((nextBlock none blksize content).1 ::
            List.replicate retries (nextBlock none blksize content).1,
           .timedOutFail) ∧
      ∀ s : RState, s.shouldStop = false →
        ∃ tr s2, rdrive blksize retries s [.acked] = (tr, .pending s2) ∧
          s2.retransmits = 0 := by
  constructor
  · have := rdrive_timeouts blksize retries retries
      (rrunInit blksize content) (nextBlock none blksize content).1 rfl (by simp [rrunInit])
    simp only [rrunSession, this]
  · intro s hstop
    refine ⟨[(nextBlock s.cur blksize s.remaining).1], ackStep blksize s, ?_, rfl⟩
    rw [show ([WaitR.acked] : List WaitR) = .acked :: [] from rfl,
      rdrive_cons_acked blksize retries s [] hstop, rdrive_nil]

/-- C8 witness: with blksize 2, retries 1 and a 3-byte target, two timeouts
produce the initial DATA plus one retransmission and then `TransmitTimeout`;
an acknowledged block leaves a state with zero retransmissions. -/
theorem c8_retransmission_witness :
    rrunSession 2 1 [9, 9, 9] (List.replicate 2 .timedOut)
        = ((nextBlock none 2 [9, 9, 9]).1 ::
            List.replicate 1 (nextBlock none 2 [9, 9, 9]).1,
           .timedOutFail) ∧
      ∃ tr s2, rdrive 2 1 ⟨some (.dataP 1 [9, 9]), 5, false, [9]⟩ [.acked]
          = (tr, .pending s2) ∧ s2.retransmits = 0 :=
  ⟨(c8_retransmission 2 1 [9, 9, 9]).1,
    (c8_retransmission 2 1 [9, 9, 9]).2 ⟨some (.dataP 1 [9, 9]), 5, false, [9]⟩ rfl⟩

/-! ## Session reaction to a single datagram (handler.py wait loops and
`run()` exception handling) -/

/-- A packet source or session peer: opaque (host, port). -/
abbrev Addr := Nat × Nat

structure Datagram where
  bytes : List Nat
  src : Addr
deriving DecidableEq, Repr

/-- The raisable errors of handler.py: `packet.Error` (raised for local
conditions, and also re-raised verbatim when a peer-sent ERROR parses —
`raise err` raises the parsed `packet.Error` object itself) and
`TransmitTimeout`.  `exception.PeerError` exists but no statement in the
repository ever raises it. -/
inductive TErr where
  | tftpError (code : Nat) (msg : List Nat)
  | transmitTimeout
deriving DecidableEq, Repr

/-- `u'from wrong peer'` as ASCII bytes. -/
def MSG_WRONG_PEER : List Nat :=
  [102, 114, 111, 109, 32, 119, 114, 111, 110, 103, 32, 112, 101, 101, 114]

/-- `u'Expecting an ACK.'` as ASCII bytes. -/
def MSG_EXPECT_ACK : List Nat :=
  [69, 120, 112, 101, 99, 116, 105, 110, 103, 32, 97, 110, 32, 65, 67, 75, 46]

/-- `u'Expecting a data block.'` as ASCII bytes. -/
def MSG_EXPECT_DATA : List Nat :=
  [69, 120, 112, 101, 99, 116, 105, 110, 103, 32, 97, 32, 100, 97, 116, 97,
   32, 98, 108, 111, 99, 107, 46]

/-- What one pass of `BaseReadHandler.__wait_one_ack` produces. -/
inductive AckWait where
  | ackNum (n : Nat)
  | raised (e : TErr)
  | pythonExc (e : PyExc)
deriving DecidableEq, Repr

/-- What one pass of `BaseWriteHandler._wait_one_block` produces. -/
inductive BlockWait where
  | blockPkt (bn : Nat) (payload : List Nat)
  | raised (e : TErr)
  | pythonExc (e : PyExc)
deriving DecidableEq, Repr

/-- `BaseReadHandler.__wait_one_ack` on one received datagram: reject a wrong
source with `Error(0, 'from wrong peer')`; re-raise a parsed ERROR packet;
return the block number of a parsed ACK; otherwise raise
`Error(4, 'Expecting an ACK.')`.  An exception escaping `Error.parse`
(e.g. IndexError on a 4-byte ERROR) propagates. -/
def waitOneAck (peer : Addr) (d : Datagram) : AckWait :=
  if d.src ≠ peer then .raised (.tftpError 0 MSG_WRONG_PEER)
  else
    match errorParseE d.bytes with
    | .exc e => .pythonExc e
    | .ok cm => .raised (.tftpError cm.1 cm.2)
    | .failed =>
      match ackParseA d.bytes with
      | .exc e => .pythonExc e
      | .ok n => .ackNum n
      | .failed => .raised (.tftpError 4 MSG_EXPECT_ACK)

/-- `BaseWriteHandler._wait_one_block` on one received datagram, mirroring
`__wait_one_ack` with DATA in place of ACK. -/
def waitOneBlock (peer : Addr) (d : Datagram) : BlockWait :=
  if d.src ≠ peer then .raised (.tftpError 0 MSG_WRONG_PEER)
  else
    match errorParseE d.bytes with
    | .exc e => .pythonExc e
    | .ok cm => .raised (.tftpError cm.1 cm.2)
    | .failed =>
      match dataParseD d.bytes with
      | .exc e => .pythonExc e
      | .ok bp => .blockPkt bp.1 bp.2
      | .failed => .raised (.tftpError 4 MSG_EXPECT_DATA)

/-- How `run()` (read and write handler alike) ends the session when an
exception reaches it: `except Error` logs and calls `self._transmit(e)`,
sending the ERROR packet to the session peer, before `finally` closes;
`except TransmitTimeout` logs and closes silently.  The `except PeerError`
clause would also close silently, but it is dead code: nothing raises
`PeerError`. -/
inductive SessionEnd where
  | sendErrorAndClose (code : Nat) (msg : List Nat)
  | closeSilently
deriving DecidableEq, Repr

def runCatch : TErr → SessionEnd
  | .tftpError c m => .sendErrorAndClose c m
  | .transmitTimeout => .closeSilently

/-- The session-level effect of one datagram handled inside a wait loop:
the loop proceeds with the parsed packet, or the raised error reaches
`run()` (the `_wait_ack` / `_wait_data` wrappers catch only `Timeout`) which
ends the session, or an uncaught Python exception kills the greenlet. -/
inductive DatagramEffect where
  | proceedAck (n : Nat)
  | proceedData (bn : Nat) (payload : List Nat)
  | ended (e : SessionEnd)
  | crashed (e : PyExc)
deriving DecidableEq, Repr

def readSessionOnDatagram (peer : Addr) (d : Datagram) : DatagramEffect :=
  match waitOneAck peer d with
  | .ackNum n => .proceedAck n
  | .raised e => .ended (runCatch e)
  | .pythonExc e => .crashed e

def writeSessionOnDatagram (peer : Addr) (d : Datagram) : DatagramEffect :=
  match waitOneBlock peer d with
  | .blockPkt bn p => .proceedData bn p
  | .raised e => .ended (runCatch e)
  | .pythonExc e => .crashed e

/-- C9: a packet whose source differs from the session peer makes
`__wait_one_ack` (read side) and `_wait_one_block` (write side) raise
`Error(0, 'from wrong peer')`; the wait wrappers catch only `Timeout`, so
the error reaches `run()`, whose `except Error` clause transmits that ERROR
— code 0 — to the session peer (`_transmit` always sends to `self._peer`)
and the session closes. -/
theorem c9_wrong_peer (peer : Addr) (d : Datagram) (h : d.src ≠ peer) :
    readSessionOnDatagram peer d
        = .ended (.sendErrorAndClose 0 MSG_WRONG_PEER) ∧
      writeSessionOnDatagram peer d
        = .ended (.sendErrorAndClose 0 MSG_WRONG_PEER) := by
  constructor <;>
    simp [readSessionOnDatagram, writeSessionOnDatagram, waitOneAck,
      waitOneBlock, h, runCatch]

/-- C9 witness: a well-formed ACK arriving from (7, 5000) on a session whose
peer is (9, 6000) draws ERROR 0 to the peer and ends both session kinds. -/
theorem c9_wrong_peer_witness :
    readSessionOnDatagram (9, 6000) ⟨[0, 4, 0, 1], (7, 5000)⟩
        = .ended (.sendErrorAndClose 0 MSG_WRONG_PEER) ∧
      writeSessionOnDatagram (9, 6000) ⟨[0, 4, 0, 1], (7, 5000)⟩
        = .ended (.sendErrorAndClose 0 MSG_WRONG_PEER) :=
  c9_wrong_peer (9, 6000) ⟨[0, 4, 0, 1], (7, 5000)⟩ (by decide)

/-- C2 fails on the code: a well-formed ERROR packet arriving from the
correct peer is parsed and re-raised as the `packet.Error` instance itself
(`raise err`), and `run()`'s `except Error` clause — which precedes the dead
`except PeerError` clause — transmits it back to the peer before closing.
So the peer-sent ERROR(1, 'no') is echoed to the peer on both the read and
the write side, not merely logged as the claim states.  (The second half of
the claim holds: a locally raised `Error` is transmitted exactly once, by
that same clause.) -/
theorem c2_peer_error_echoed :
    readSessionOnDatagram (9, 6000) ⟨(Packet.err 1 [110, 111]).raw, (9, 6000)⟩
        = .ended (.sendErrorAndClose 1 [110, 111]) ∧
      writeSessionOnDatagram (9, 6000) ⟨(Packet.err 1 [110, 111]).raw, (9, 6000)⟩
        = .ended (.sendErrorAndClose 1 [110, 111]) := by
  decide

/-- C4 fails on the code: the safe-mode parse functions only catch their own
`Invalid*` exceptions, so several malformed shapes raise instead of
returning `None`: a truncated header raises `struct.error`
(`Request.parse(b'\x00')`, `Data.parse(b'\x00\x03\x00')`); non-ASCII bytes
raise `UnicodeDecodeError`; an invalid mode string trips the `Request`
constructor's assertion (`AssertionError`); an odd OACK token list raises
`IndexError` at `tokens[pos + 1]`; a 4-byte ERROR raises `IndexError` at
`message[-1]`.  (`ACK.parse` checks the length first and genuinely returns
`None`.)  This contradicts `Request.parse`'s own docstring, which promises
`None` on failure in safe mode. -/
theorem c4_safe_parse_escapes :
    requestParse [0] = .exc .structError ∧
      requestParse ([0, 1] ++ [97] ++ [0] ++ [109, 97, 105, 108] ++ [0])
        = .exc .assertionError ∧
      requestParse [0, 1, 200, 0] = .exc .unicodeDecodeError ∧
      dataParse [0, 3, 0] = .exc .structError ∧
      oackParse ([0, 6] ++ [98, 108, 107, 115, 105, 122, 101] ++ [0])
        = .exc .indexError ∧
      errorParse [0, 5, 0, 1] = .exc .indexError ∧
      ackParse [0, 4, 0] = .failed := by
  decide

/-! ## NetASCII transform (src/gtftp/netascii.py) -/

/-- The walk of `NetasciiWriter.write`: at each index it reads `data[idx]`
and `data[idx + 1]`; `\r\n` appends `\n` and advances by two, `\r\0` appends
`\r` and advances by two, anything else appends the byte and advances by
one.  When exactly one byte remains, `data[idx + 1]` is out of range and
raises IndexError. -/
def netasciiDecode : List Nat → PRes (List Nat)
  | [] => .ok []
  | [_] => .exc .indexError
  | c1 :: c2 :: rest =>
    if c1 = 13 ∧ c2 = 10 then (netasciiDecode rest).map (fun l => 10 :: l)
    else if c1 = 13 ∧ c2 = 0 then (netasciiDecode rest).map (fun l => 13 :: l)
    else (netasciiDecode (c2 :: rest)).map (fun l => c1 :: l)

/-- C3 fails on the code: decoding the 7-byte `"A\r\nB\r\0C"` raises
IndexError (after consuming `\r\0` the walk sits on the final `C` and reads
`data[7]`), instead of writing `"A\nB\rC"`.  The pair mapping itself is
right — the same input without the trailing `C` decodes to `"A\nB\r"` — but
every input whose last byte is not the second byte of a `\r`-pair crashes,
so the decoder cannot handle the claim's input, nor any chunk ending in a
bare byte. -/
theorem c3_decoder_crashes :
    netasciiDecode [65, 13, 10, 66, 13, 0, 67] = .exc .indexError ∧
      netasciiDecode [65, 13, 10, 66, 13, 0] = .ok [65, 10, 66, 13] ∧
      netasciiDecode [65] = .exc .indexError := by
  decide

/-- `Target.read`'s documented contract on a list-backed target: a
non-negative count returns at most that many bytes; a negative (or omitted)
count reads until EOF. -/
def targetRead (content : List Nat) (n : Int) : List Nat × List Nat :=
  if n < 0 then (content, [])
  else (content.take n.toNat, content.drop n.toNat)

/-- The `\n → \r\n`, `\r → \r\0` expansion loop inside
`NetasciiReader.read`. -/
def netasciiExpand : List Nat → List Nat
  | [] => []
  | b :: rest =>
    (if b = 10 then [13, 10] else if b = 13 then [13, 0] else [b]) ++
      netasciiExpand rest

/-- Residual-buffer state of a `NetasciiReader` before `size()` has been
called (`_slurp is None`): the overflow buffer and the underlying reader's
unread bytes. -/
structure NReaderState where
  buffer : List Nat
  content : List Nat
deriving DecidableEq, Repr

/-- The count `NetasciiReader.read(size)` passes to the underlying reader:
`size - buffer_size`, a Python int that goes negative whenever the residual
buffer is larger than the request. -/
def nreaderReadCount (st : NReaderState) (size : Nat) : Int :=
  (size : Int) - st.buffer.length

/-- `NetasciiReader.read(size)` before `size()` was called: extend the
drained buffer with the expansion of `reader.read(size - buffer_size)`,
return the first `size` bytes and keep the overflow as the new buffer. -/
def nreaderRead (st : NReaderState) (size : Nat) : List Nat × NReaderState :=
  let tr := targetRead st.content (nreaderReadCount st size)
  let data := st.buffer ++ netasciiExpand tr.1
  (data.take size, ⟨data.drop size, tr.2⟩)

/-- C10 fails on the code: after `read(4)` on a reader holding four `\n`
bytes (each expanding to two bytes), the residual buffer holds 4 bytes, and
a subsequent `read(1)` passes the negative count `1 - 4 = -3` to the
underlying reader — which, per the `Target.read` contract, reads until EOF —
rather than serving the request from the buffer alone. -/
theorem c10_negative_count_counterexample :
    (nreaderRead ⟨[], [10, 10, 10, 10, 97, 98]⟩ 4).2.buffer.length = 4 ∧
      nreaderReadCount (nreaderRead ⟨[], [10, 10, 10, 10, 97, 98]⟩ 4).2 1 = -3 ∧
      nreaderReadCount (nreaderRead ⟨[], [10, 10, 10, 10, 97, 98]⟩ 4).2 1 < 0 := by
  decide

/-- C10 amended: the count `read(size)` passes to the underlying reader is
exactly `size - len(buffer)`; it is non-negative precisely when the residual
buffer holds at most `size` bytes (so a larger residual buffer — possible
after an earlier read with a larger size — does produce a negative count,
reading the target to EOF under the documented contract).  The request is
nevertheless served from the front of the buffered data, with the surplus
retained in the buffer. -/
theorem c10_read_count (st : NReaderState) (size : Nat) :
    nreaderReadCount st size = (size : Int) - st.buffer.length ∧
      (0 ≤ nreaderReadCount st size ↔ st.buffer.length ≤ size) ∧
      (nreaderRead st size).1 = (st.buffer ++
        netasciiExpand (targetRead st.content (nreaderReadCount st size)).1).take size := by
  refine ⟨rfl, ?_, rfl⟩
  simp only [nreaderReadCount]
  omega

/-! ## Dispatcher (src/gtftp/server.py) -/

/-- Modelled from the spec: the `constants` module imported by
src/gtftp/server.py is not present under src/.  Per the spec's glossary the
request opcodes are RRQ = 1 and WRQ = 2. -/
def C_OPCODE_RRQ : Nat := 1

/-- Modelled from the spec: WRQ opcode from the absent `constants` module. -/
def C_OPCODE_WRQ : Nat := 2

/-- `Server.parse_request`: opcode from the first two bytes, remainder
decoded as latin-1 (which never fails on bytes) and split on NUL with empty
tokens dropped; at least two tokens and an even count are required; mode is
lowercased but not validated; option keys are lowercased.  Returns
`(code, path, mode, options)` or `None`.  (A datagram shorter than two bytes
would make `struct.unpack` raise; the claim concerns valid RRQ/WRQ
datagrams, which are longer.) -/
def serverParseRequest (data : List Nat) :
    Option (Nat × List Nat × List Nat × List (List Nat × List Nat)) :=
  match data with
  | b0 :: b1 :: rest =>
    let code := de16 b0 b1
    if code ≠ C_OPCODE_RRQ ∧ code ≠ C_OPCODE_WRQ then none
    else
      let tokens := tokensOf rest
      if tokens.length < 2 ∨ tokens.length % 2 ≠ 0 then none
      else some (code, tokens.getD 0 [], lowerStr (tokens.getD 1 []),
        buildOptionsEven [] (tokens.drop 2))
  | _ => none

/-- A positional argument of a call to the embedder's factory, as a Python
value.  `reqObj` is what the claim (and the example subclass
`StaticServer.get_hanlder(req, server_addr, peer, retries, timeout)`)
expects first: a parsed request object.  `Server.handle_request` never
builds one. -/
inductive PyArg where
  | addrA (a : Addr)
  | natA (n : Nat)
  | strA (s : List Nat)
  | optsA (o : List (List Nat × List Nat))
  | reqObj (p : Packet)
deriving DecidableEq, Repr

def PyArg.isReqObj : PyArg → Bool
  | .reqObj _ => true
  | _ => false

/-- `Server.handle_request(data, peer)`: parse the datagram and, on success,
call `self.get_hanlder((self.host, self.port), peer, code, path, mode,
self._retries, self._timeout, options)` and run the result.  Returns the
positional argument list of that factory call, or `None` when the datagram
was discarded. -/
def serverHandleRequest (serverAddr peer : Addr) (retries timeout : Nat)
    (data : List Nat) : Option (List PyArg) :=
  match serverParseRequest data with
  | some (code, path, mode, options) =>
      some [.addrA serverAddr, .addrA peer, .natA code, .strA path,
        .strA mode, .natA retries, .natA timeout, .optsA options]
  | none => none

/-- The positional parameter count of the example embedder's factory
`StaticServer.get_hanlder(self, req, server_addr, peer, retries, timeout)`
in src/examples/server.py: five, the first a parsed request object. -/
def exampleGetHanlderParamCount : Nat := 5

/-- C6 fails on the code: for a valid RRQ datagram the dispatcher calls the
factory with eight positional arguments — `(server_addr, peer, code, path,
mode, retries, timeout, options)` — the first being the server address, and
none of them a parsed request object; this is not the claimed
`(request, local_addr, peer, retries, timeout)` shape, which is what the
repository's own example subclass declares (five parameters, request
first), so the example's factory cannot even be invoked by this
dispatcher. -/
theorem c6_factory_call_shape :
    serverHandleRequest (0, 69) (7, 5000) 3 5
        ([0, 1] ++ [97] ++ [0] ++ MODE_BINARY ++ [0])
      = some [.addrA (0, 69), .addrA (7, 5000), .natA 1, .strA [97],
          .strA MODE_BINARY, .natA 3, .natA 5, .optsA []] ∧
      ((serverHandleRequest (0, 69) (7, 5000) 3 5
          ([0, 1] ++ [97] ++ [0] ++ MODE_BINARY ++ [0])).getD []).length = 8 ∧
      ((serverHandleRequest (0, 69) (7, 5000) 3 5
          ([0, 1] ++ [97] ++ [0] ++ MODE_BINARY ++ [0])).getD []).all
        (fun a => ! a.isReqObj) = true ∧
      exampleGetHanlderParamCount ≠ 8 := by
  decide

end GTftp
